import Mathlib

set_option linter.unusedVariables false

/- Shallow embedding of src/bin/index.js (typerom-typegen): a code generator
   that projects TypeORM entity class declarations into plain TypeScript
   interface declarations.  The external parsing facility (ts-morph) is
   modelled by the data types below: a source file is a list of class
   declarations, a class carries decorator names, properties and methods,
   and a property carries the decorators, the declared type text
   (prop.getType().getText()) and the result that extractEnum would
   produce for its type.  File-system writes are modelled by returning the
   assembled data; output paths are relative to the output directory. -/

/-- Single-quote character (written via its code point). -/
def squote : Char := Char.ofNat 39

/-- Double-quote character (written via its code point). -/
def dquote : Char := Char.ofNat 34

/-- First argument of a decorator call, as seen by the generator: either a
string literal (with its raw source text, quotes included) or anything
else (arrow function, options object, ...).  `getCallExpression()` being
absent (decorator without parentheses) is modelled by `none` at the
`Decorator.firstArg` level. -/
inductive ArgExpr where
  | stringLit (raw : String)
  | otherExpr
deriving DecidableEq, Repr

/-- A decorator attached to a class, property or method: its name and the
first argument of its call expression, when there is one. -/
structure Decorator where
  name : String
  firstArg : Option ArgExpr
deriving DecidableEq, Repr

/-- Left-hand side of a binary expression, as inspected by the lifecycle
scan: either a property access `<objText>.<prop>` or anything else. -/
inductive LhsExpr where
  | propAccess (objText : String) (prop : String)
  | otherLhs
deriving DecidableEq, Repr

/-- A binary expression found among the descendants of a method body
(ts-morph `SyntaxKind.BinaryExpression`).  The generator only ever looks
at the left operand; the operator is carried here to show that it is
never inspected. -/
structure BinExpr where
  left : LhsExpr
  op : String
deriving DecidableEq, Repr

/-- Value of an enum member (`m.getValue()`): a string or a number. -/
inductive EnumVal where
  | str (s : String)
  | num (n : Int)
deriving DecidableEq, Repr

/-- Result of `extractEnum` on a property type that resolves to an enum
declaration: the enum's name and its members in order. -/
structure EnumInfo where
  name : String
  members : List (String × EnumVal)
deriving DecidableEq, Repr

/-- A property declaration: name, declared type text
(`prop.getType().getText()`), attached decorators, and what `extractEnum`
yields on its type (`none` when the type is not an enum declaration). -/
structure Property where
  name : String
  typeText : String
  decorators : List Decorator
  enumInfo : Option EnumInfo
deriving DecidableEq, Repr

/-- A method declaration: its decorator names and the binary expressions
found as descendants of its body (empty when the method has no body). -/
structure MethodDecl where
  decorators : List String
  binExprs : List BinExpr
deriving DecidableEq, Repr

/-- A class declaration: optional name (`getName()` can be undefined),
decorator names, properties and methods. -/
structure ClassDecl where
  name : Option String
  decorators : List String
  properties : List Property
  methods : List MethodDecl
deriving DecidableEq, Repr

/-- A parsed source file: its path and its classes. -/
structure SourceFile where
  filePath : String
  classes : List ClassDecl
deriving DecidableEq, Repr

/-- The list of relation decorator names (function `isRelationDecorator`'s
array in the source). -/
def relationDecoratorNames : List String :=
  ["OneToMany", "ManyToOne", "OneToOne", "ManyToMany", "JoinTable", "JoinColumn"]

/-- `isRelationDecorator(decoratorName)` from the source. -/
def isRelationDecorator (decoratorName : String) : Bool :=
  relationDecoratorNames.contains decoratorName

/-- `toModelName(className)` from the source: append the fixed suffix. -/
def toModelName (className : String) : String :=
  className ++ "Model"

/-- The lifecycle decorator set from the source (`lifecycleDecorators`). -/
def lifecycleDecorators : List String :=
  ["AfterLoad", "BeforeInsert", "AfterInsert", "BeforeUpdate", "AfterUpdate"]

/-- Last path component, modelling node's `path.basename(p)`: the
characters after the last path separator. -/
def pathBasename (p : String) : String :=
  String.mk (p.data.foldl (fun acc c => if c = '/' then [] else acc ++ [c]) [])

/-- Boolean suffix test on strings, via their character lists. -/
def strSuffix (ext s : String) : Bool :=
  ext.data.isSuffixOf s.data

/-- Remove a final suffix of known length (used only when `strSuffix` holds;
also models `.replace(/\x5b\x5d$/, "")` for the array-type check). -/
def dropSuffixStr (s ext : String) : String :=
  String.mk (s.data.take (s.data.length - ext.data.length))

/-- Node's `path.basename(p, ext)`: take the basename, then strip `ext`
when it is a proper suffix of the basename. -/
def basenameStripExt (p ext : String) : String :=
  let b := pathBasename p
  if b ≠ ext && strSuffix ext b then dropSuffixStr b ext else b

/-- `first.getText().replace(/['"]/g, "")` from the relation branch: delete
every single or double quote character from the raw argument text. -/
def stripQuotes (s : String) : String :=
  String.mk (s.data.filter (fun c => c ≠ squote && c ≠ dquote))

/-- Insertion into a JS `Set` of strings kept in iteration (insertion)
order: append unless already present. -/
def setAdd (s : List String) (x : String) : List String :=
  if s.contains x then s else s ++ [x]

/-- `usedEnums.set(name, info)` on a JS `Map` kept in iteration order:
replace in place when the key is present, append otherwise. -/
def enumMapSet (m : List EnumInfo) (e : EnumInfo) : List EnumInfo :=
  if m.any (fun x => x.name == e.name) then
    m.map (fun x => if x.name == e.name then e else x)
  else m ++ [e]

/-- JS object used as a string-keyed map (`modelFileMap`); only lookups are
performed on it, so it is modelled as a lookup function. -/
def JsMap : Type := String → Option String

/-- `m[k] = v` on a JS object. -/
def jsSet (m : JsMap) (k v : String) : JsMap :=
  fun q => if q = k then some v else m q

/-- The empty JS object. -/
def jsEmpty : JsMap := fun _ => none

/-- Template-string interpolation of a possibly-undefined value, as in
JavaScript: `undefined` prints as the text "undefined". -/
def jsTemplate : Option String → String
  | some s => s
  | none => "undefined"

/-- An `import` line as assembled in the source
(`import \x7b $mname \x7d from './$module';`). -/
def importLine (mname : String) (fromMod : Option String) : String :=
  "import \x7b " ++ mname ++ " \x7d from './" ++ jsTemplate fromMod ++ "';"

/-- The classes of a source file carrying the `Entity` decorator
(the filter applied both in the registry pass and in generation). -/
def entityClassesOf (sf : SourceFile) : List ClassDecl :=
  sf.classes.filter (fun c => c.decorators.contains "Entity")

/-- Registry pass over one file (lines 80-91): record
`name -> basename(path, ".entity.ts")` for every named entity class. -/
def registerFile (m : JsMap) (sf : SourceFile) : JsMap :=
  (entityClassesOf sf).foldl
    (fun m c =>
      match c.name with
      | some n => jsSet m n (basenameStripExt sf.filePath ".entity.ts")
      | none => m)
    m

/-- The full registry pass (`modelFileMap`), over all source files in
order, before any generation happens. -/
def buildRegistry (sfs : List SourceFile) : JsMap :=
  sfs.foldl registerFile jsEmpty

/-- Scan of one method for the lifecycle-implicit property discovery
(lines 174-190): when the method carries a lifecycle decorator, every
binary expression whose left operand is a property access on `this`
contributes its property name.  The operator of the expression is never
inspected. -/
def scanMethodAuto (acc : List String) (m : MethodDecl) : List String :=
  if m.decorators.any (fun d => lifecycleDecorators.contains d) then
    m.binExprs.foldl
      (fun acc be =>
        match be.left with
        | LhsExpr.propAccess objText prop =>
            if objText = "this" then setAdd acc prop else acc
        | LhsExpr.otherLhs => acc)
      acc
  else acc

/-- The `autoProps` set of a class, in discovery order. -/
def autoPropsOf (c : ClassDecl) : List String :=
  c.methods.foldl scanMethodAuto []

/-- The relation decorator the property branch acts on: the first attached
relation decorator, provided its first argument is a string literal; the
paired string is the literal text with quotes removed (the target entity
name). -/
def relStringLit (p : Property) : Option (Decorator × String) :=
  match p.decorators.find? (fun d => isRelationDecorator d.name) with
  | some r =>
      match r.firstArg with
      | some (ArgExpr.stringLit raw) => some (r, stripQuotes raw)
      | _ => none
  | none => none

/-- Whether some decorator name of the property ends in `Column`
(`names.some(n => n.endsWith("Column"))` in the source). -/
def hasColumnDec (p : Property) : Bool :=
  (p.decorators.map (fun d => d.name)).any (fun n => strSuffix "Column" n)

/-- Whether the property carries the `VirtualColumn` decorator. -/
def isVirtualDec (p : Property) : Bool :=
  (p.decorators.map (fun d => d.name)).contains "VirtualColumn"

/-- Mutable state threaded through the property loop of one output module:
the `imports` set, the `usedEnums` map and the accumulated interface
properties (name and generated type text). -/
structure PropState where
  imports : List String
  usedEnums : List EnumInfo
  props : List (String × String)
deriving DecidableEq, Repr

/-- Processing of a single property (lines 193-254 of the source): skip
undecorated properties; handle a relation whose first argument is a
string literal; otherwise handle virtual columns, then lifecycle-implicit
properties, then the fallback with enum inlining and entity-reference
rewriting. -/
def processProp (reg : JsMap) (className : String) (autoProps : List String)
    (st : PropState) (p : Property) : PropState :=
  let hasColumn := hasColumnDec p
  let rel := p.decorators.find? (fun d => isRelationDecorator d.name)
  let isVirtual := isVirtualDec p
  let shouldAuto := autoProps.contains p.name
  if !hasColumn && rel.isNone && !shouldAuto then st
  else
    match relStringLit p with
    | some (r, target) =>
        let mname := toModelName target
        let st1 :=
          if target ≠ className then
            { st with imports := setAdd st.imports (importLine mname (reg target)) }
          else st
        { st1 with
            props := st1.props ++
              [(p.name, mname ++ (if r.name = "OneToMany" then "[]" else ""))] }
    | none =>
        if isVirtual then
          { st with props := st.props ++ [(p.name, p.typeText)] }
        else if shouldAuto then
          { st with props := st.props ++ [(p.name, p.typeText)] }
        else
          match p.enumInfo with
          | some e =>
              { st with usedEnums := enumMapSet st.usedEnums e,
                        props := st.props ++ [(p.name, e.name)] }
          | none =>
              if strSuffix "[]" p.typeText then
                let bt := dropSuffixStr p.typeText "[]"
                match reg bt with
                | some mdl =>
                    { st with
                        imports := setAdd st.imports (importLine (toModelName bt) (some mdl)),
                        props := st.props ++ [(p.name, toModelName bt ++ "[]")] }
                | none => { st with props := st.props ++ [(p.name, p.typeText)] }
              else
                match reg p.typeText with
                | some mdl =>
                    { st with
                        imports := setAdd st.imports
                          (importLine (toModelName p.typeText) (some mdl)),
                        props := st.props ++ [(p.name, toModelName p.typeText)] }
                | none => { st with props := st.props ++ [(p.name, p.typeText)] }

/-- Class name with the source's default for unnamed classes. -/
def classNameOf (c : ClassDecl) : String :=
  c.name.getD "UnnamedModel"

/-- Mutable state of one output module across its entity classes: the
shared `imports` and `usedEnums`, and the finished interfaces (interface
name and property list). -/
structure FileState where
  imports : List String
  usedEnums : List EnumInfo
  interfaces : List (String × List (String × String))
deriving DecidableEq, Repr

/-- Processing of one entity class within a module (lines 166-261):
compute the lifecycle-implicit set, run the property loop and append the
finished interface. -/
def processClass (reg : JsMap) (st : FileState) (c : ClassDecl) : FileState :=
  let className := classNameOf c
  let interfaceName := className ++ "Model"
  let autoProps := autoPropsOf c
  let ps : PropState :=
    { imports := st.imports, usedEnums := st.usedEnums, props := [] }
  let ps := c.properties.foldl (processProp reg className autoProps) ps
  { imports := ps.imports, usedEnums := ps.usedEnums,
    interfaces := st.interfaces ++ [(interfaceName, ps.props)] }

/-- The name of the shared base interface. -/
def baseModelInterface : String := "BaseModel"

/-- One generated module: output file name (relative to the output
directory), import lines in insertion order, interfaces in order, and the
enums to inline in insertion order. -/
structure GenModule where
  outFile : String
  imports : List String
  interfaces : List (String × List (String × String))
  enums : List EnumInfo
deriving DecidableEq, Repr

/-- Generation of one source file (lines 148-277): files without
entity-decorated classes produce no module; otherwise the imports set is
seeded with the base-model import and every entity class is processed in
order. -/
def genFile (reg : JsMap) (sf : SourceFile) : Option GenModule :=
  let ecs := entityClassesOf sf
  if ecs.isEmpty then none
  else
    let baseName := basenameStripExt sf.filePath ".entity.ts"
    let st0 : FileState :=
      { imports := [importLine baseModelInterface (some "base-model")],
        usedEnums := [], interfaces := [] }
    let st := ecs.foldl (processClass reg) st0
    some { outFile := baseName ++ ".ts", imports := st.imports,
           interfaces := st.interfaces, enums := st.usedEnums }

/-- The `allInterfaceNames` array accumulated across the generation loop:
one entry (module id, interface name) per entity class, in file order
then class order. -/
def allInterfaceNames (sfs : List SourceFile) : List (String × String) :=
  sfs.flatMap (fun sf =>
    (entityClassesOf sf).map (fun c =>
      (basenameStripExt sf.filePath ".entity.ts", classNameOf c ++ "Model")))

/-- The lines of the barrel file (lines 280-282): one wildcard re-export
per `allInterfaceNames` entry, naming the entry's module. -/
def barrelLines (sfs : List SourceFile) : List String :=
  (allInterfaceNames sfs).map (fun e => "export * from './" ++ e.1 ++ "';")

/-- The text written to `index.ts`: the joined lines plus a final newline. -/
def barrelText (sfs : List SourceFile) : String :=
  String.intercalate "\n" (barrelLines sfs) ++ "\n"

/-- The globs passed to `addSourceFilesAtPaths` (lines 68-71): a file is
scanned when its basename ends in `.entity.ts` or in `.type.ts`. -/
def globMatches (p : String) : Bool :=
  strSuffix ".entity.ts" (pathBasename p) || strSuffix ".type.ts" (pathBasename p)

/- Helper lemmas shared by several claims. -/

/-- Membership in a JS-set insertion. -/
theorem mem_setAdd {s : List String} {x n : String} :
    n ∈ setAdd s x ↔ n ∈ s ∨ n = x := by
  unfold setAdd
  by_cases h : s.contains x = true
  · rw [if_pos h]
    have hx : x ∈ s := List.elem_iff.mp h
    constructor
    · exact Or.inl
    · rintro (h1 | rfl)
      · exact h1
      · exact hx
  · rw [if_neg h]
    simp

/-- Mapping a constant function yields a replicated list. -/
theorem map_const_replicate {α β : Type} (l : List α) (b : β) :
    l.map (fun _ => b) = List.replicate l.length b := by
  induction l with
  | nil => rfl
  | cons a l ih => simp [List.replicate, ih]

/- Claim C1. -/

def c1ManyToMany : Decorator :=
  { name := "ManyToMany", firstArg := some (ArgExpr.stringLit "\"Post\"") }

def c1PostsProp : Property :=
  { name := "posts", typeText := "Post[]", decorators := [c1ManyToMany],
    enumInfo := none }

def c1UserFile : SourceFile :=
  { filePath := "user.entity.ts",
    classes := [{ name := some "User", decorators := ["Entity"],
                  properties := [c1PostsProp], methods := [] }] }

def c1PostFile : SourceFile :=
  { filePath := "post.entity.ts",
    classes := [{ name := some "Post", decorators := ["Entity"],
                  properties := [], methods := [] }] }

def c1EmptyState : PropState := { imports := [], usedEnums := [], props := [] }

/-- C1 counterexample: a `ManyToMany` relation decoration (a to-many kind)
naming target `Post` yields the non-array type `PostModel`, not the array
`PostModel[]` the claim requires: only `OneToMany` receives the array
suffix. -/
theorem c1_counterexample :
    (genFile (buildRegistry [c1UserFile, c1PostFile]) c1UserFile).map
        (fun m => m.interfaces)
      = some [("UserModel", [("posts", "PostModel")])]
    ∧ "PostModel" ≠ "PostModel[]" := by decide

/-- C1 (amended): for a relation-decorated property whose decoration's
first argument is a string literal naming target T, the generated
property is typed as the array of T plus `Model` when the decoration is
`OneToMany`, and as the non-array reference for every other relation
decoration, `ManyToMany` included. -/
theorem c1_relation_generated_type (reg : JsMap) (cn : String)
    (ap : List String) (st : PropState) (p : Property) (r : Decorator)
    (target : String) (h : relStringLit p = some (r, target)) :
    (processProp reg cn ap st p).props =
      st.props ++ [(p.name,
        if r.name = "OneToMany" then toModelName target ++ "[]"
        else toModelName target)] := by
  have hfind : (p.decorators.find? (fun d => isRelationDecorator d.name)).isNone = false := by
    unfold relStringLit at h
    cases hf : p.decorators.find? (fun d => isRelationDecorator d.name) with
    | none => rw [hf] at h; exact absurd h (by simp)
    | some r0 => simp [hf]
  unfold processProp
  dsimp only
  rw [hfind, h]
  simp only [Bool.and_false, Bool.false_and, Bool.false_eq_true, if_false]
  split <;> split <;> simp_all

/-- C1 witness: the amended statement evaluated on the `ManyToMany`
property of the counterexample. -/
theorem c1_relation_generated_type_witness :
    relStringLit c1PostsProp = some (c1ManyToMany, "Post")
    ∧ (processProp jsEmpty "User" [] c1EmptyState c1PostsProp).props =
        c1EmptyState.props ++ [(c1PostsProp.name,
          if c1ManyToMany.name = "OneToMany" then toModelName "Post" ++ "[]"
          else toModelName "Post")] :=
  ⟨by decide,
   c1_relation_generated_type jsEmpty "User" [] c1EmptyState c1PostsProp
     c1ManyToMany "Post" (by decide)⟩

/- Claim C2. -/

def c2TwoClassFile : SourceFile :=
  { filePath := "x.entity.ts",
    classes := [ { name := some "A", decorators := ["Entity"],
                   properties := [], methods := [] },
                 { name := some "B", decorators := ["Entity"],
                   properties := [], methods := [] } ] }

/-- C2 counterexample: a single input file declaring two entity classes
produces two (identical) wildcard re-export lines in the barrel file,
although only one output module exists, so the barrel does not contain
exactly one line per module. -/
theorem c2_counterexample :
    (barrelLines [c2TwoClassFile]).length = 2
    ∧ ([c2TwoClassFile].filter (fun sf => !(entityClassesOf sf).isEmpty)).length = 1
    ∧ barrelText [c2TwoClassFile] = "export * from './x';\nexport * from './x';\n" := by
  decide

/-- C2 (amended): the barrel file contains one wildcard re-export line per
generated entity type (not per module), in discovery order: every input
file contributes, per entity class it declares, one line naming that
file's module, so a file with several entity classes contributes that
many duplicate lines. -/
theorem c2_barrel_line_per_entity_class (sfs : List SourceFile) :
    barrelLines sfs = sfs.flatMap (fun sf =>
      List.replicate (entityClassesOf sf).length
        ("export * from './" ++ basenameStripExt sf.filePath ".entity.ts" ++ "';")) := by
  unfold barrelLines allInterfaceNames
  induction sfs with
  | nil => rfl
  | cons sf sfs ih =>
      simp only [List.flatMap_cons, List.map_append, ih, List.map_map]
      congr 1
      exact map_const_replicate _ _

/- Claim C4. -/

def c4CmpMethod : MethodDecl :=
  { decorators := ["BeforeInsert"],
    binExprs := [{ left := LhsExpr.propAccess "this" "flag", op := "===" }] }

def c4Class : ClassDecl :=
  { name := some "U", decorators := ["Entity"], properties := [],
    methods := [c4CmpMethod] }

/-- C4 counterexample: a lifecycle hook whose body contains only the
comparison `this.flag === ...` (no assignment at all) still marks `flag`
as lifecycle-implicit, because the scan accepts every binary expression
whose left operand is a property access on `this`, never inspecting the
operator. -/
theorem c4_counterexample :
    autoPropsOf c4Class = ["flag"]
    ∧ c4CmpMethod.binExprs.all (fun be => be.op != "=") = true := by decide

/-- C4 (amended): a property name is discovered as lifecycle-implicit
exactly when some lifecycle-decorated method's body contains a binary
expression of any operator (assignment, comparison, ...) whose left
operand is the property access `this.<name>`. -/
theorem c4_discovery_iff (c : ClassDecl) (n : String) :
    n ∈ autoPropsOf c ↔
      ∃ m ∈ c.methods,
        m.decorators.any (fun d => lifecycleDecorators.contains d) = true
        ∧ ∃ be ∈ m.binExprs, be.left = LhsExpr.propAccess "this" n := by
  have hbin : ∀ (l : List BinExpr) (acc : List String),
      n ∈ l.foldl
        (fun acc be =>
          match be.left with
          | LhsExpr.propAccess objText prop =>
              if objText = "this" then setAdd acc prop else acc
          | LhsExpr.otherLhs => acc) acc
      ↔ n ∈ acc ∨ ∃ be ∈ l, be.left = LhsExpr.propAccess "this" n := by
    intro l
    induction l with
    | nil => intro acc; simp
    | cons be l ih =>
        intro acc
        rw [List.foldl_cons]
        obtain ⟨lft, op⟩ := be
        cases lft with
        | propAccess objText prop =>
            by_cases hobj : objText = "this"
            · subst hobj
              rw [ih]
              simp only [eq_self_iff_true, if_true, mem_setAdd, List.mem_cons]
              constructor
              · rintro ((h1 | rfl) | ⟨b, hb, hl⟩)
                · exact Or.inl h1
                · exact Or.inr ⟨⟨LhsExpr.propAccess "this" n, op⟩, Or.inl rfl, rfl⟩
                · exact Or.inr ⟨b, Or.inr hb, hl⟩
              · rintro (h1 | ⟨b, (rfl | hb), hl⟩)
                · exact Or.inl (Or.inl h1)
                · cases hl
                  exact Or.inl (Or.inr rfl)
                · exact Or.inr ⟨b, hb, hl⟩
            · rw [ih]
              simp only [List.mem_cons]
              rw [if_neg hobj]
              constructor
              · rintro (h1 | ⟨b, hb, hl⟩)
                · exact Or.inl h1
                · exact Or.inr ⟨b, Or.inr hb, hl⟩
              · rintro (h1 | ⟨b, (rfl | hb), hl⟩)
                · exact Or.inl h1
                · cases hl
                  exact absurd rfl hobj
                · exact Or.inr ⟨b, hb, hl⟩
        | otherLhs =>
            rw [ih]
            simp only [List.mem_cons]
            constructor
            · rintro (h1 | ⟨b, hb, hl⟩)
              · exact Or.inl h1
              · exact Or.inr ⟨b, Or.inr hb, hl⟩
            · rintro (h1 | ⟨b, (rfl | hb), hl⟩)
              · exact Or.inl h1
              · cases hl
              · exact Or.inr ⟨b, hb, hl⟩
  have hmeth : ∀ (ms : List MethodDecl) (acc : List String),
      n ∈ ms.foldl scanMethodAuto acc
      ↔ n ∈ acc ∨ ∃ m ∈ ms,
          m.decorators.any (fun d => lifecycleDecorators.contains d) = true
          ∧ ∃ be ∈ m.binExprs, be.left = LhsExpr.propAccess "this" n := by
    intro ms
    induction ms with
    | nil => intro acc; simp
    | cons m ms ih =>
        intro acc
        rw [List.foldl_cons, ih]
        unfold scanMethodAuto
        by_cases hd : m.decorators.any (fun d => lifecycleDecorators.contains d) = true
        · rw [if_pos hd, hbin]
          simp only [List.mem_cons]
          constructor
          · rintro ((h1 | ⟨b, hb, hl⟩) | ⟨m2, hm2, hm2d, hm2b⟩)
            · exact Or.inl h1
            · exact Or.inr ⟨m, Or.inl rfl, hd, b, hb, hl⟩
            · exact Or.inr ⟨m2, Or.inr hm2, hm2d, hm2b⟩
          · rintro (h1 | ⟨m2, (rfl | hm2), hm2d, hm2b⟩)
            · exact Or.inl (Or.inl h1)
            · exact Or.inl (Or.inr hm2b)
            · exact Or.inr ⟨m2, hm2, hm2d, hm2b⟩
        · rw [if_neg hd]
          simp only [List.mem_cons]
          constructor
          · rintro (h1 | ⟨m2, hm2, hm2d, hm2b⟩)
            · exact Or.inl h1
            · exact Or.inr ⟨m2, Or.inr hm2, hm2d, hm2b⟩
          · rintro (h1 | ⟨m2, (rfl | hm2), hm2d, hm2b⟩)
            · exact Or.inl h1
            · exact absurd hm2d hd
            · exact Or.inr ⟨m2, hm2, hm2d, hm2b⟩
  unfold autoPropsOf
  rw [hmeth]
  simp

/- Helper for the relation-branch claims: a property with a string-literal
relation decoration does have a relation decorator. -/

/-- When `relStringLit` succeeds, `find?` found a relation decorator. -/
theorem find_not_none_of_relStringLit {p : Property} {r : Decorator}
    {target : String} (h : relStringLit p = some (r, target)) :
    (p.decorators.find? (fun d => isRelationDecorator d.name)).isNone = false := by
  unfold relStringLit at h
  cases hf : p.decorators.find? (fun d => isRelationDecorator d.name) with
  | none => rw [hf] at h; exact absurd h (by simp)
  | some r0 => simp [hf]

/- Claim C3. -/

def c3FriendProp : Property :=
  { name := "friend", typeText := "Post",
    decorators := [{ name := "Column", firstArg := none }], enumInfo := none }

def c3Hook : MethodDecl :=
  { decorators := ["AfterLoad"],
    binExprs := [{ left := LhsExpr.propAccess "this" "friend", op := "=" }] }

def c3UserFile : SourceFile :=
  { filePath := "user.entity.ts",
    classes := [{ name := some "User", decorators := ["Entity"],
                  properties := [c3FriendProp], methods := [c3Hook] }] }

def c3PostFile : SourceFile :=
  { filePath := "post.entity.ts",
    classes := [{ name := some "Post", decorators := ["Entity"],
                  properties := [], methods := [] }] }

def c3EmptyState : PropState := { imports := [], usedEnums := [], props := [] }

/-- C3 counterexample: the property `friend` carries the `Column`
decoration, its declared type `Post` names a registered entity, and its
name is assigned in an `AfterLoad` hook body; the generated property
keeps the verbatim type text `Post` and no import of `PostModel` is
added, so the declared type is not resolved further as the claim
states. -/
theorem c3_counterexample :
    (genFile (buildRegistry [c3UserFile, c3PostFile]) c3UserFile).map
        (fun m => m.interfaces)
      = some [("UserModel", [("friend", "Post")])]
    ∧ (genFile (buildRegistry [c3UserFile, c3PostFile]) c3UserFile).map
        (fun m => m.imports)
      = some [importLine baseModelInterface (some "base-model")]
    ∧ hasColumnDec c3FriendProp = true
    ∧ buildRegistry [c3UserFile, c3PostFile] "Post" = some "post"
    ∧ "Post" ≠ "PostModel" := by decide

/-- C3 (amended): the lifecycle-implicit branch takes precedence over the
fallback: any property whose name is hook-assigned, that is not a
virtual column and is not handled by the string-literal relation path,
keeps its declared static type text verbatim — even when it carries a
decoration ending in `Column` — and triggers no enum capture, no entity
rewriting and no import. -/
theorem c3_auto_branch_precedence (reg : JsMap) (cn : String)
    (ap : List String) (st : PropState) (p : Property)
    (hauto : ap.contains p.name = true)
    (hrel : relStringLit p = none)
    (hvirt : isVirtualDec p = false) :
    processProp reg cn ap st p =
      { st with props := st.props ++ [(p.name, p.typeText)] } := by
  unfold processProp
  dsimp only
  rw [hauto, hrel, hvirt]
  simp

/-- C3 witness: the amended statement evaluated on the counterexample's
column-decorated, hook-assigned property. -/
theorem c3_auto_branch_precedence_witness :
    (["friend"].contains c3FriendProp.name = true)
    ∧ processProp jsEmpty "User" ["friend"] c3EmptyState c3FriendProp =
        { c3EmptyState with
            props := c3EmptyState.props ++ [(c3FriendProp.name, c3FriendProp.typeText)] } :=
  ⟨by decide,
   c3_auto_branch_precedence jsEmpty "User" ["friend"] c3EmptyState c3FriendProp
     (by decide) (by decide) (by decide)⟩

/- Claim C5. -/

def c5OneToOne : Decorator :=
  { name := "OneToOne", firstArg := some (ArgExpr.stringLit "\"Ghost\"") }

def c5RelProp : Property :=
  { name := "ghost", typeText := "Ghost", decorators := [c5OneToOne],
    enumInfo := none }

def c5ColProp : Property :=
  { name := "data", typeText := "CustomType",
    decorators := [{ name := "Column", firstArg := none }], enumInfo := none }

def c5EmptyState : PropState := { imports := [], usedEnums := [], props := [] }

/-- C5: unresolved references degrade silently.  First part: a relation
whose string-literal target is absent from the registry still produces
the synthesized model reference, and (unless it is a self-relation) an
added import whose source module interpolates as `undefined`.  Second part: a
column-decorated fallback property whose declared type text (in plain or
array form) names no registered entity and no enum is passed through
verbatim, with no import and no error. -/
theorem c5_unresolved_silent (reg : JsMap) (cn : String) (ap : List String)
    (st : PropState) (p : Property) :
    (∀ r target, relStringLit p = some (r, target) → reg target = none →
      target ≠ cn →
        processProp reg cn ap st p =
          { st with
              imports := setAdd st.imports (importLine (toModelName target) none),
              props := st.props ++ [(p.name, toModelName target ++
                (if r.name = "OneToMany" then "[]" else ""))] })
    ∧ (relStringLit p = none → isVirtualDec p = false →
       ap.contains p.name = false → p.enumInfo = none → hasColumnDec p = true →
        (strSuffix "[]" p.typeText = false → reg p.typeText = none →
            processProp reg cn ap st p =
              { st with props := st.props ++ [(p.name, p.typeText)] })
        ∧ (strSuffix "[]" p.typeText = true →
           reg (dropSuffixStr p.typeText "[]") = none →
            processProp reg cn ap st p =
              { st with props := st.props ++ [(p.name, p.typeText)] })) := by
  constructor
  · intro r target h hreg hne
    have hfind := find_not_none_of_relStringLit h
    unfold processProp
    dsimp only
    rw [hfind, h]
    simp only [Bool.and_false, Bool.false_and, Bool.false_eq_true, if_false]
    rw [if_pos hne, hreg]
  · intro hrel hvirt hauto henum hcol
    constructor
    · intro hsuf hreg
      unfold processProp
      dsimp only
      rw [hcol, hrel, hvirt, hauto, henum, hsuf, hreg]
      simp
    · intro hsuf hreg
      unfold processProp
      dsimp only
      rw [hcol, hrel, hvirt, hauto, henum, hsuf, hreg]
      simp

/-- C5 witness: both parts evaluated — an `OneToOne` relation targeting
the unregistered entity `Ghost` (import line interpolating `undefined`),
and a column property of unregistered type `CustomType` passed through
verbatim. -/
theorem c5_unresolved_silent_witness :
    processProp jsEmpty "User" [] c5EmptyState c5RelProp =
      { c5EmptyState with
          imports := setAdd c5EmptyState.imports (importLine (toModelName "Ghost") none),
          props := c5EmptyState.props ++ [(c5RelProp.name, toModelName "Ghost" ++
            (if c5OneToOne.name = "OneToMany" then "[]" else ""))] }
    ∧ processProp jsEmpty "User" [] c5EmptyState c5ColProp =
        { c5EmptyState with
            props := c5EmptyState.props ++ [(c5ColProp.name, c5ColProp.typeText)] } :=
  ⟨(c5_unresolved_silent jsEmpty "User" [] c5EmptyState c5RelProp).1
     c5OneToOne "Ghost" (by decide) rfl (by decide),
   ((c5_unresolved_silent jsEmpty "User" [] c5EmptyState c5ColProp).2
     (by decide) (by decide) (by decide) rfl (by decide)).1 (by decide) rfl⟩

/- Claim C7. -/

def c7SelfDec : Decorator :=
  { name := "ManyToOne", firstArg := some (ArgExpr.stringLit "\"User\"") }

def c7SelfProp : Property :=
  { name := "parent", typeText := "User", decorators := [c7SelfDec],
    enumInfo := none }

def c7OtherDec : Decorator :=
  { name := "ManyToOne", firstArg := some (ArgExpr.stringLit "\"Post\"") }

def c7OtherProp : Property :=
  { name := "post", typeText := "Post", decorators := [c7OtherDec],
    enumInfo := none }

def c7Reg : JsMap := jsSet jsEmpty "Post" "post"

def c7EmptyState : PropState := { imports := [], usedEnums := [], props := [] }

/-- C7: for a string-literal relation, a self-relation (target equals the
owning class name) adds no import, while any other target with a
registered module adds the import of the target's model from that
module. -/
theorem c7_self_relation_no_import (reg : JsMap) (cn : String)
    (ap : List String) (st : PropState) (p : Property) (r : Decorator)
    (target : String) (h : relStringLit p = some (r, target)) :
    (target = cn → (processProp reg cn ap st p).imports = st.imports)
    ∧ (target ≠ cn → ∀ mdl, reg target = some mdl →
        (processProp reg cn ap st p).imports =
          setAdd st.imports (importLine (toModelName target) (some mdl))) := by
  have hfind := find_not_none_of_relStringLit h
  unfold processProp
  dsimp only
  rw [hfind, h]
  simp only [Bool.and_false, Bool.false_and, Bool.false_eq_true, if_false]
  constructor
  · intro heq
    rw [if_neg (by simp [heq])]
  · intro hne mdl hmdl
    rw [if_pos hne, hmdl]

/-- C7 witness: a self-relation of `User` adds no import; a relation of
`User` to the registered `Post` adds the `PostModel` import from the
`post` module. -/
theorem c7_self_relation_no_import_witness :
    (processProp c7Reg "User" [] c7EmptyState c7SelfProp).imports =
      c7EmptyState.imports
    ∧ (processProp c7Reg "User" [] c7EmptyState c7OtherProp).imports =
        setAdd c7EmptyState.imports (importLine (toModelName "Post") (some "post")) :=
  ⟨(c7_self_relation_no_import c7Reg "User" [] c7EmptyState c7SelfProp
      c7SelfDec "User" (by decide)).1 rfl,
   (c7_self_relation_no_import c7Reg "User" [] c7EmptyState c7OtherProp
      c7OtherDec "Post" (by decide)).2 (by decide) "post" rfl⟩

/- Claim C9. -/

def c9ArrowDec : Decorator :=
  { name := "ManyToOne", firstArg := some ArgExpr.otherExpr }

def c9AuthorProp : Property :=
  { name := "author", typeText := "Post", decorators := [c9ArrowDec],
    enumInfo := none }

def c9Reg : JsMap := jsSet jsEmpty "Post" "post"

def c9EmptyState : PropState := { imports := [], usedEnums := [], props := [] }

/-- C9: a property with a relation decoration whose first argument is not
a string literal is not handled by the relation path; being neither
virtual nor hook-assigned, it reaches the fallback, where its declared
type is rewritten to the registered entity's model name (with import)
when the registry resolves it, and passed through verbatim otherwise. -/
theorem c9_nonliteral_relation_falls_through (reg : JsMap) (cn : String)
    (ap : List String) (st : PropState) (p : Property)
    (hrel : (p.decorators.find? (fun d => isRelationDecorator d.name)).isNone = false)
    (hlit : relStringLit p = none)
    (hvirt : isVirtualDec p = false)
    (hauto : ap.contains p.name = false)
    (henum : p.enumInfo = none)
    (harr : strSuffix "[]" p.typeText = false) :
    (∀ mdl, reg p.typeText = some mdl →
        processProp reg cn ap st p =
          { st with
              imports := setAdd st.imports
                (importLine (toModelName p.typeText) (some mdl)),
              props := st.props ++ [(p.name, toModelName p.typeText)] })
    ∧ (reg p.typeText = none →
        processProp reg cn ap st p =
          { st with props := st.props ++ [(p.name, p.typeText)] }) := by
  constructor
  · intro mdl hmdl
    unfold processProp
    dsimp only
    rw [hrel, hlit, hvirt, hauto, henum, harr, hmdl]
    simp
  · intro hreg
    unfold processProp
    dsimp only
    rw [hrel, hlit, hvirt, hauto, henum, harr, hreg]
    simp

/-- C9 witness: a `ManyToOne` decoration with an arrow-function first
argument on a property declared with type `Post` is resolved through the
fallback to `PostModel` with the import from the `post` module. -/
theorem c9_nonliteral_relation_falls_through_witness :
    c9ArrowDec.firstArg = some ArgExpr.otherExpr
    ∧ processProp c9Reg "Comment" [] c9EmptyState c9AuthorProp =
        { c9EmptyState with
            imports := setAdd c9EmptyState.imports
              (importLine (toModelName "Post") (some "post")),
            props := c9EmptyState.props ++ [(c9AuthorProp.name, toModelName "Post")] } :=
  ⟨by decide,
   (c9_nonliteral_relation_falls_through c9Reg "Comment" [] c9EmptyState
      c9AuthorProp (by decide) (by decide) (by decide) (by decide) (by decide)
      (by decide)).1 "post" rfl⟩

/- Claim C8 (and the registration-event view shared with C10). -/

/-- The registration events of the registry pass, in processing order:
one `(entityName, moduleId)` pair per named entity class. -/
def regEvents (sfs : List SourceFile) : List (String × String) :=
  sfs.flatMap (fun sf =>
    (entityClassesOf sf).filterMap (fun c =>
      c.name.map (fun nm => (nm, basenameStripExt sf.filePath ".entity.ts"))))

/-- The value associated with the LAST event for a key, if any. -/
def lastAssoc (l : List (String × String)) (n : String) : Option String :=
  l.foldl (fun acc kv => if kv.1 = n then some kv.2 else acc) none

/-- Folding the last-wins accumulator from an arbitrary start. -/
theorem lastAssoc_fold_acc (n : String) :
    ∀ (l : List (String × String)) (acc : Option String),
      l.foldl (fun acc kv => if kv.1 = n then some kv.2 else acc) acc
        = match l.foldl (fun acc kv => if kv.1 = n then some kv.2 else acc) none with
          | some v => some v
          | none => acc := by
  intro l
  induction l with
  | nil => intro acc; rfl
  | cons kv l ih =>
      intro acc
      rw [List.foldl_cons, List.foldl_cons,
        ih (if kv.1 = n then some kv.2 else acc),
        ih (if kv.1 = n then some kv.2 else none)]
      cases l.foldl (fun acc kv => if kv.1 = n then some kv.2 else acc) none with
      | some v => rfl
      | none =>
          by_cases h : kv.1 = n
          · rw [if_pos h, if_pos h]
          · rw [if_neg h, if_neg h]

/-- Folding JS-object assignments over an event list looks up as the
last event for the queried key, falling back to the initial object. -/
theorem jsSet_foldl_lastAssoc (n : String) :
    ∀ (l : List (String × String)) (m : JsMap),
      (l.foldl (fun m kv => jsSet m kv.1 kv.2) m) n
        = match lastAssoc l n with
          | some v => some v
          | none => m n := by
  intro l
  induction l with
  | nil => intro m; rfl
  | cons kv l ih =>
      intro m
      unfold lastAssoc
      rw [List.foldl_cons, List.foldl_cons, ih,
        lastAssoc_fold_acc n l (if kv.1 = n then some kv.2 else none)]
      unfold lastAssoc
      cases l.foldl (fun acc kv => if kv.1 = n then some kv.2 else acc) none with
      | some v => rfl
      | none =>
          by_cases h : kv.1 = n
          · rw [if_pos h]
            unfold jsSet
            rw [if_pos h.symm]
          · rw [if_neg h]
            unfold jsSet
            rw [if_neg (fun hq => h hq.symm)]

/-- The per-file class fold of the registry pass equals the fold of that
file's registration events. -/
theorem classFold_filterMap (bn : String) :
    ∀ (l : List ClassDecl) (m : JsMap),
      l.foldl (fun m c =>
        match c.name with
        | some nm => jsSet m nm bn
        | none => m) m
      = (l.filterMap (fun c => c.name.map (fun nm => (nm, bn)))).foldl
          (fun m kv => jsSet m kv.1 kv.2) m := by
  intro l
  induction l with
  | nil => intro m; rfl
  | cons c l ih =>
      intro m
      rw [List.foldl_cons, List.filterMap_cons]
      cases hc : c.name with
      | some nm =>
          dsimp only [Option.map]
          rw [List.foldl_cons]
          exact ih _
      | none =>
          dsimp only [Option.map]
          exact ih _

/-- The registry pass is the fold of all registration events. -/
theorem buildRegistry_eventFold :
    ∀ (sfs : List SourceFile) (m : JsMap),
      sfs.foldl registerFile m
        = (regEvents sfs).foldl (fun m kv => jsSet m kv.1 kv.2) m := by
  intro sfs
  induction sfs with
  | nil => intro m; rfl
  | cons sf sfs ih =>
      intro m
      rw [List.foldl_cons, ih]
      unfold regEvents
      rw [List.flatMap_cons, List.foldl_append]
      congr 1
      unfold registerFile
      exact classFold_filterMap _ _ m

def c8FileA : SourceFile :=
  { filePath := "a.entity.ts",
    classes := [{ name := some "User", decorators := ["Entity"],
                  properties := [], methods := [] }] }

def c8FileB : SourceFile :=
  { filePath := "b.entity.ts",
    classes := [{ name := some "User", decorators := ["Entity"],
                  properties := [], methods := [] }] }

/-- C8: the registry lookup for a name is exactly the module of the LAST
registration event for that name — a later-registered entity with a
duplicate name silently overwrites the earlier mapping, with no conflict
error (the pass is a total function); concretely, two files both
declaring entity `User` register the module of the second file. -/
theorem c8_registry_last_wins :
    (∀ (sfs : List SourceFile) (n : String),
        buildRegistry sfs n = lastAssoc (regEvents sfs) n)
    ∧ buildRegistry [c8FileA, c8FileB] "User" = some "b" := by
  constructor
  · intro sfs n
    unfold buildRegistry
    rw [buildRegistry_eventFold, jsSet_foldl_lastAssoc]
    cases lastAssoc (regEvents sfs) n with
    | some v => rfl
    | none => rfl
  · decide

/- Claim C10. -/

def c10TypeFile : SourceFile :=
  { filePath := "models/status.type.ts",
    classes := [{ name := some "Status", decorators := ["Entity"],
                  properties := [], methods := [] }] }

def c10Module : GenModule :=
  { outFile := "status.type.ts.ts",
    imports := [importLine baseModelInterface (some "base-model")],
    interfaces := [("StatusModel", [])],
    enums := [] }

/-- C10: a file whose basename ends in `.type.ts` matches the scan globs,
but the module identifier strips only the `.entity.ts` suffix, so the
module id is the full basename `name.type.ts`: every entity class the
file declares is registered under that id, and the generated module is
written to `name.type.ts` + `.ts` = `name.type.ts.ts`. -/
theorem c10_type_ts_double_suffix (p b : String)
    (hb : pathBasename p = b)
    (hsuf : strSuffix ".type.ts" b = true) :
    globMatches p = true
    ∧ basenameStripExt p ".entity.ts" = b
    ∧ (∀ sf : SourceFile, sf.filePath = p → ∀ e ∈ regEvents [sf], e.2 = b)
    ∧ (∀ (reg : JsMap) (sf : SourceFile) (m : GenModule), sf.filePath = p →
        genFile reg sf = some m → m.outFile = b ++ ".ts") := by
  have hent : strSuffix ".entity.ts" b = false := by
    by_contra hc
    rw [Bool.not_eq_false] at hc
    unfold strSuffix at hc hsuf
    rw [List.isSuffixOf_iff_suffix] at hc hsuf
    rcases List.suffix_or_suffix_of_suffix hsuf hc with h | h
    · exact absurd h (by decide)
    · exact absurd h (by decide)
  have hbase : basenameStripExt p ".entity.ts" = b := by
    unfold basenameStripExt
    dsimp only
    rw [hb, hent, Bool.and_false]
    simp
  refine ⟨?_, hbase, ?_, ?_⟩
  · unfold globMatches
    rw [hb, hsuf, Bool.or_true]
  · intro sf hp e he
    unfold regEvents at he
    rw [List.flatMap_cons, List.flatMap_nil, List.append_nil] at he
    obtain ⟨c, hc, hce⟩ := List.mem_filterMap.mp he
    obtain ⟨nm, hnm, hfe⟩ := Option.map_eq_some'.mp hce
    rw [← hfe, hp]
    exact hbase
  · intro reg sf m hp hgen
    unfold genFile at hgen
    dsimp only at hgen
    by_cases he : (entityClassesOf sf).isEmpty = true
    · rw [if_pos he] at hgen
      exact absurd hgen (by simp)
    · rw [if_neg he] at hgen
      have hm := Option.some.inj hgen
      rw [← hm]
      show basenameStripExt sf.filePath ".entity.ts" ++ ".ts" = b ++ ".ts"
      rw [hp, hbase]

/-- C10 witness: the concrete file `models/status.type.ts` declaring
entity `Status` generates the module file `status.type.ts.ts`. -/
theorem c10_type_ts_double_suffix_witness :
    genFile jsEmpty c10TypeFile = some c10Module
    ∧ c10Module.outFile = "status.type.ts" ++ ".ts" :=
  ⟨by decide,
   (c10_type_ts_double_suffix "models/status.type.ts" "status.type.ts"
      (by decide) (by decide)).2.2.2 jsEmpty c10TypeFile c10Module rfl (by decide)⟩

/- Claim C6. -/

/-- The enum (if any) that processing a property inserts into the
module's `usedEnums` map, read off the branch structure of
`processProp`: only a non-skipped property that is not handled by the
string-literal relation path, is not virtual and is not hook-assigned
reaches the fallback, where its `enumInfo` is inserted. -/
def propAddsEnum (ap : List String) (p : Property) : Option EnumInfo :=
  if !hasColumnDec p
      && (p.decorators.find? (fun d => isRelationDecorator d.name)).isNone
      && !ap.contains p.name then none
  else
    match relStringLit p with
    | some _ => none
    | none =>
        if isVirtualDec p then none
        else if ap.contains p.name then none
        else p.enumInfo

/-- Characterization of the `usedEnums` component of `processProp`. -/
theorem processProp_usedEnums (reg : JsMap) (cn : String) (ap : List String)
    (st : PropState) (p : Property) :
    (processProp reg cn ap st p).usedEnums =
      match propAddsEnum ap p with
      | some e => enumMapSet st.usedEnums e
      | none => st.usedEnums := by
  unfold processProp propAddsEnum
  dsimp only
  by_cases hg : (!hasColumnDec p
      && (p.decorators.find? (fun d => isRelationDecorator d.name)).isNone
      && !ap.contains p.name) = true
  · rw [if_pos hg, if_pos hg]
  · rw [if_neg hg, if_neg hg]
    cases hrel : relStringLit p with
    | some rt =>
        obtain ⟨r, target⟩ := rt
        dsimp only
        by_cases ht : target ≠ cn
        · rw [if_pos ht]
        · rw [if_neg ht]
    | none =>
        dsimp only
        by_cases hv : isVirtualDec p = true
        · rw [if_pos hv, if_pos hv]
        · rw [if_neg hv, if_neg hv]
          by_cases ha : ap.contains p.name = true
          · rw [if_pos ha, if_pos ha]
          · rw [if_neg ha, if_neg ha]
            cases he : p.enumInfo with
            | some e => rfl
            | none =>
                by_cases hs : strSuffix "[]" p.typeText = true
                · rw [if_pos hs]
                  cases reg (dropSuffixStr p.typeText "[]") with
                  | some mdl => rfl
                  | none => rfl
                · rw [if_neg hs]
                  cases reg p.typeText with
                  | some mdl => rfl
                  | none => rfl

/-- Replacing the value stored under a key does not change name counts. -/
theorem countP_replace (n : String) (e : EnumInfo) :
    ∀ m : List EnumInfo,
      (m.map (fun x => if x.name == e.name then e else x)).countP
          (fun x => x.name == n)
        = m.countP (fun x => x.name == n) := by
  intro m
  induction m with
  | nil => rfl
  | cons x m ih =>
      rw [List.map_cons, List.countP_cons, List.countP_cons, ih]
      by_cases hx : (x.name == e.name) = true
      · rw [if_pos hx]
        have hxe : x.name = e.name := eq_of_beq hx
        rw [hxe]
      · rw [if_neg hx]

/-- Name count after a keyed map insertion. -/
theorem countP_enumMapSet (n : String) (m : List EnumInfo) (e : EnumInfo) :
    (enumMapSet m e).countP (fun x => x.name == n) =
      if m.any (fun x => x.name == e.name) then
        m.countP (fun x => x.name == n)
      else m.countP (fun x => x.name == n) + (if (e.name == n) then 1 else 0) := by
  unfold enumMapSet
  by_cases h : m.any (fun x => x.name == e.name) = true
  · rw [if_pos h, if_pos h]
    exact countP_replace n e m
  · rw [if_neg h, if_neg h, List.countP_append, List.countP_cons, List.countP_nil,
      Nat.zero_add]

/-- Keyed insertion keeps name counts at most one. -/
theorem count_le_enumMapSet (n : String) (m : List EnumInfo) (e : EnumInfo)
    (h : m.countP (fun x => x.name == n) ≤ 1) :
    (enumMapSet m e).countP (fun x => x.name == n) ≤ 1 := by
  rw [countP_enumMapSet]
  by_cases hany : m.any (fun x => x.name == e.name) = true
  · rw [if_pos hany]
    exact h
  · rw [if_neg hany]
    by_cases hn : (e.name == n) = true
    · rw [if_pos hn]
      have hen : e.name = n := eq_of_beq hn
      have h0 : m.countP (fun x => x.name == n) = 0 := by
        rcases Nat.eq_zero_or_pos (m.countP (fun x => x.name == n)) with h0 | hpos
        · exact h0
        · exfalso
          obtain ⟨a, ha, hpa⟩ := List.countP_pos_iff.mp hpos
          apply hany
          rw [List.any_eq_true]
          refine ⟨a, ha, ?_⟩
          rw [hen]
          exact hpa
      rw [h0]
    · rw [if_neg hn, Nat.add_zero]
      exact h

/-- Keyed insertion makes the inserted name present. -/
theorem count_pos_enumMapSet_self (m : List EnumInfo) (e : EnumInfo) :
    0 < (enumMapSet m e).countP (fun x => x.name == e.name) := by
  rw [countP_enumMapSet]
  by_cases hany : m.any (fun x => x.name == e.name) = true
  · rw [if_pos hany]
    obtain ⟨a, ha, hpa⟩ := List.any_eq_true.mp hany
    exact List.countP_pos_iff.mpr ⟨a, ha, hpa⟩
  · rw [if_neg hany, if_pos (beq_self_eq_true e.name)]
    exact Nat.succ_pos _

/-- Keyed insertion never removes a present name. -/
theorem count_pos_enumMapSet_mono (n : String) (m : List EnumInfo)
    (e : EnumInfo) (h : 0 < m.countP (fun x => x.name == n)) :
    0 < (enumMapSet m e).countP (fun x => x.name == n) := by
  rw [countP_enumMapSet]
  by_cases hany : m.any (fun x => x.name == e.name) = true
  · rw [if_pos hany]; exact h
  · rw [if_neg hany]
    exact Nat.lt_of_lt_of_le h (Nat.le_add_right _ _)

/-- Property processing keeps enum-name counts at most one. -/
theorem processProp_count_le (reg : JsMap) (cn : String) (ap : List String)
    (st : PropState) (p : Property) (n : String)
    (h : st.usedEnums.countP (fun x => x.name == n) ≤ 1) :
    (processProp reg cn ap st p).usedEnums.countP (fun x => x.name == n) ≤ 1 := by
  rw [processProp_usedEnums]
  cases propAddsEnum ap p with
  | some e => exact count_le_enumMapSet n st.usedEnums e h
  | none => exact h

/-- Property processing never removes a present enum name. -/
theorem processProp_count_pos (reg : JsMap) (cn : String) (ap : List String)
    (st : PropState) (p : Property) (n : String)
    (h : 0 < st.usedEnums.countP (fun x => x.name == n)) :
    0 < (processProp reg cn ap st p).usedEnums.countP (fun x => x.name == n) := by
  rw [processProp_usedEnums]
  cases propAddsEnum ap p with
  | some e => exact count_pos_enumMapSet_mono n st.usedEnums e h
  | none => exact h

/-- A property that inserts an enum makes that enum present. -/
theorem processProp_count_pos_of_adds (reg : JsMap) (cn : String)
    (ap : List String) (st : PropState) (p : Property) (e : EnumInfo)
    (h : propAddsEnum ap p = some e) :
    0 < (processProp reg cn ap st p).usedEnums.countP (fun x => x.name == e.name) := by
  rw [processProp_usedEnums, h]
  exact count_pos_enumMapSet_self st.usedEnums e

/-- The property fold keeps enum-name counts at most one. -/
theorem propsFold_count_le (reg : JsMap) (cn : String) (ap : List String)
    (n : String) :
    ∀ (ps : List Property) (st : PropState),
      st.usedEnums.countP (fun x => x.name == n) ≤ 1 →
      ((ps.foldl (processProp reg cn ap) st).usedEnums.countP
        (fun x => x.name == n)) ≤ 1 := by
  intro ps
  induction ps with
  | nil => intro st h; exact h
  | cons p ps ih =>
      intro st h
      rw [List.foldl_cons]
      exact ih _ (processProp_count_le reg cn ap st p n h)

/-- The property fold never removes a present enum name. -/
theorem propsFold_count_pos (reg : JsMap) (cn : String) (ap : List String)
    (n : String) :
    ∀ (ps : List Property) (st : PropState),
      0 < st.usedEnums.countP (fun x => x.name == n) →
      0 < ((ps.foldl (processProp reg cn ap) st).usedEnums.countP
        (fun x => x.name == n)) := by
  intro ps
  induction ps with
  | nil => intro st h; exact h
  | cons p ps ih =>
      intro st h
      rw [List.foldl_cons]
      exact ih _ (processProp_count_pos reg cn ap st p n h)

/-- A referencing property in the list makes its enum present after the
property fold. -/
theorem propsFold_count_pos_of_mem (reg : JsMap) (cn : String)
    (ap : List String) (e : EnumInfo) :
    ∀ (ps : List Property) (st : PropState) (p : Property), p ∈ ps →
      propAddsEnum ap p = some e →
      0 < ((ps.foldl (processProp reg cn ap) st).usedEnums.countP
        (fun x => x.name == e.name)) := by
  intro ps
  induction ps with
  | nil => intro st p hp; exact absurd hp (List.not_mem_nil p)
  | cons q ps ih =>
      intro st p hp hadds
      rw [List.foldl_cons]
      rcases List.mem_cons.mp hp with rfl | hp
      · exact propsFold_count_pos reg cn ap e.name ps _
          (processProp_count_pos_of_adds reg cn ap st p e hadds)
      · exact ih _ p hp hadds

/-- The `usedEnums` component of one class step. -/
theorem processClass_usedEnums (reg : JsMap) (st : FileState) (c : ClassDecl) :
    (processClass reg st c).usedEnums =
      ((c.properties.foldl
          (processProp reg (classNameOf c) (autoPropsOf c))
          { imports := st.imports, usedEnums := st.usedEnums, props := [] }).usedEnums) := rfl

/-- The class fold keeps enum-name counts at most one. -/
theorem classFold_count_le (reg : JsMap) (n : String) :
    ∀ (cs : List ClassDecl) (st : FileState),
      st.usedEnums.countP (fun x => x.name == n) ≤ 1 →
      ((cs.foldl (processClass reg) st).usedEnums.countP
        (fun x => x.name == n)) ≤ 1 := by
  intro cs
  induction cs with
  | nil => intro st h; exact h
  | cons c cs ih =>
      intro st h
      rw [List.foldl_cons]
      refine ih _ ?_
      rw [processClass_usedEnums]
      exact propsFold_count_le reg (classNameOf c) (autoPropsOf c) n
        c.properties _ h

/-- The class fold never removes a present enum name. -/
theorem classFold_count_pos (reg : JsMap) (n : String) :
    ∀ (cs : List ClassDecl) (st : FileState),
      0 < st.usedEnums.countP (fun x => x.name == n) →
      0 < ((cs.foldl (processClass reg) st).usedEnums.countP
        (fun x => x.name == n)) := by
  intro cs
  induction cs with
  | nil => intro st h; exact h
  | cons c cs ih =>
      intro st h
      rw [List.foldl_cons]
      refine ih _ ?_
      rw [processClass_usedEnums]
      exact propsFold_count_pos reg (classNameOf c) (autoPropsOf c) n
        c.properties _ h

/-- A referencing property of a class in the list makes its enum present
after the class fold. -/
theorem classFold_count_pos_of_mem (reg : JsMap) (e : EnumInfo) :
    ∀ (cs : List ClassDecl) (st : FileState) (c : ClassDecl) (p : Property),
      c ∈ cs → p ∈ c.properties →
      propAddsEnum (autoPropsOf c) p = some e →
      0 < ((cs.foldl (processClass reg) st).usedEnums.countP
        (fun x => x.name == e.name)) := by
  intro cs
  induction cs with
  | nil => intro st c p hc; exact absurd hc (List.not_mem_nil c)
  | cons q cs ih =>
      intro st c p hc hp hadds
      rw [List.foldl_cons]
      rcases List.mem_cons.mp hc with rfl | hc
      · refine classFold_count_pos reg e.name cs _ ?_
        rw [processClass_usedEnums]
        exact propsFold_count_pos_of_mem reg (classNameOf c) (autoPropsOf c)
          e c.properties _ p hp hadds
      · exact ih _ c p hc hp hadds

/-- The enums of a generated module are the class fold's `usedEnums`. -/
theorem genFile_enums (reg : JsMap) (sf : SourceFile) (m : GenModule)
    (hm : genFile reg sf = some m) :
    m.enums = ((entityClassesOf sf).foldl (processClass reg)
      { imports := [importLine baseModelInterface (some "base-model")],
        usedEnums := [], interfaces := [] }).usedEnums := by
  unfold genFile at hm
  dsimp only at hm
  by_cases he : (entityClassesOf sf).isEmpty = true
  · rw [if_pos he] at hm
    exact absurd hm (by simp)
  · rw [if_neg he] at hm
    obtain rfl := Option.some.inj hm
    rfl

/-- C6: an enum referenced (inserted through the fallback-with-enum
branch) by two distinct properties of entity classes of the same source
file occurs exactly once in the generated module's enum collection, from
which the emitter renders exactly one enum block per entry. -/
theorem c6_enum_embedded_once (reg : JsMap) (sf : SourceFile) (m : GenModule)
    (ca cb : ClassDecl) (pa pb : Property) (e : EnumInfo)
    (hm : genFile reg sf = some m)
    (hca : ca ∈ entityClassesOf sf) (hpa : pa ∈ ca.properties)
    (haddsa : propAddsEnum (autoPropsOf ca) pa = some e)
    (hcb : cb ∈ entityClassesOf sf) (hpb : pb ∈ cb.properties)
    (haddsb : propAddsEnum (autoPropsOf cb) pb = some e)
    (hne : pa ≠ pb) :
    m.enums.countP (fun x => x.name == e.name) = 1 := by
  rw [genFile_enums reg sf m hm]
  refine Nat.le_antisymm ?_ ?_
  · exact classFold_count_le reg e.name (entityClassesOf sf) _ (by
      rw [List.countP_nil]
      exact Nat.zero_le 1)
  · exact classFold_count_pos_of_mem reg e (entityClassesOf sf) _ ca pa
      hca hpa haddsa

def c6StatusEnum : EnumInfo :=
  { name := "Status",
    members := [("Active", EnumVal.str "active"),
                ("Inactive", EnumVal.str "inactive")] }

def c6PropA : Property :=
  { name := "statusA", typeText := "Status",
    decorators := [{ name := "Column", firstArg := none }],
    enumInfo := some c6StatusEnum }

def c6PropB : Property :=
  { name := "statusB", typeText := "Status",
    decorators := [{ name := "Column", firstArg := none }],
    enumInfo := some c6StatusEnum }

def c6Class : ClassDecl :=
  { name := some "User", decorators := ["Entity"],
    properties := [c6PropA, c6PropB], methods := [] }

def c6File : SourceFile :=
  { filePath := "user.entity.ts", classes := [c6Class] }

def c6Module : GenModule :=
  { outFile := "user.ts",
    imports := [importLine baseModelInterface (some "base-model")],
    interfaces := [("UserModel", [("statusA", "Status"), ("statusB", "Status")])],
    enums := [c6StatusEnum] }

/-- C6 witness: two column properties referencing the same enum in one
file produce a module embedding the enum exactly once. -/
theorem c6_enum_embedded_once_witness :
    genFile jsEmpty c6File = some c6Module
    ∧ c6Module.enums.countP (fun x => x.name == c6StatusEnum.name) = 1 :=
  ⟨by decide,
   c6_enum_embedded_once jsEmpty c6File c6Module c6Class c6Class c6PropA
     c6PropB c6StatusEnum (by decide) (by decide) (by decide) (by decide)
     (by decide) (by decide) (by decide) (by decide)⟩
